import Mathlib

/-!
# Verification of the BERT span-classifier data pipeline

A shallow embedding of the text-to-tensor encoding pipeline and the
streaming TSV data loader of the repository (`common.py`, `test.py`),
together with proofs about the embedded functions.

Conventions used throughout:
* a raw file line is a `List Char` (one `Char` per byte of the line,
  including its trailing newline character);
* a wordpiece token is a `String`;
* the external wordpiece tokenizer is an opaque parameter of type
  `List Char → List String`;
* Python integer arithmetic that can go negative is carried out in `Int`,
  and converted with `Int.toNat` exactly where Python clamps
  (list repetition by a negative count yields the empty list, slice
  bounds are clamped to the list range).
-/

namespace BertSpan

/-- A raw line of a file, one entry per byte, trailing newline included. -/
abbrev Line := List Char

/-- A wordpiece token. -/
abbrev Token := String

/-! ## Python-style list primitives -/

/-- Python slice `l[k:]` for a possibly negative `k`
(negative indices count from the end, results are clamped to the list). -/
def pySliceFrom (l : List α) (k : Int) : List α :=
  l.drop (if k < 0 then ((l.length : Int) + k).toNat else k.toNat)

/-- Python slice `l[:k]` for a possibly negative `k`. -/
def pySliceTo (l : List α) (k : Int) : List α :=
  l.take (if k < 0 then ((l.length : Int) + k).toNat else k.toNat)

/-- Python slice `l[a:b]` for possibly negative bounds. -/
def pySlice (l : List α) (a b : Int) : List α :=
  (pySliceTo l b).drop (if a < 0 then ((l.length : Int) + a).toNat else a.toNat)

/-- Python indexing `l[k]`: negative `k` counts from the end;
`none` models an `IndexError`. -/
def pyGet (l : List α) (k : Int) : Option α :=
  let j : Int := if k < 0 then (l.length : Int) + k else k
  if 0 ≤ j then l.get? j.toNat else none

/-- Python 3 `int(round(n / 2))` for a natural `n`: exact halves use
round-half-to-even (banker's rounding). -/
def pyRoundHalf (n : Nat) : Nat :=
  if n % 2 = 0 then n / 2
  else if (n / 2) % 2 = 0 then n / 2 else n / 2 + 1

/-- Split a character list at every occurrence of `sep`, Python
`str.split(sep)` style: splitting the empty list yields one empty field. -/
def splitOnChar (sep : Char) : List Char → List (List Char)
  | [] => [[]]
  | c :: cs =>
    if c = sep then [] :: splitOnChar sep cs
    else
      match splitOnChar sep cs with
      | [] => [[c]]
      | f :: rest => (c :: f) :: rest

/-- Python `l.split('\t')`. -/
def splitTab (l : List Char) : List (List Char) :=
  splitOnChar '\t' l

/-- Python `l.rstrip('\n')`: remove every trailing newline character. -/
def rstripNl (l : List Char) : List Char :=
  (l.reverse.dropWhile (fun c => c = '\n')).reverse

/-- The characters Python `str.strip()` removes (ASCII whitespace). -/
def isPySpace (c : Char) : Bool :=
  c.toNat = 32 || c.toNat = 9 || c.toNat = 10 || c.toNat = 13 ||
  c.toNat = 11 || c.toNat = 12

/-- Python `line.strip()`. -/
def pyStrip (l : List Char) : List Char :=
  ((l.dropWhile isPySpace).reverse.dropWhile isPySpace).reverse

/-- A simple whitespace tokenizer used to instantiate the opaque wordpiece
tokenizer parameter on concrete scenario inputs. -/
def wsTokenize (t : List Char) : List Token :=
  ((splitOnChar ' ' t).filter (fun f => !f.isEmpty)).map (fun f => String.mk f)

/-! ## TSV record reading (`parse_tsv_line`, `load_tsv_data`) -/

/-- The command-line options consulted by the data-loading code:
`--label_field`, `--text_fields` (1-based in the CLI help, used as plain
Python indices, possibly negative) and `--task_name`. -/
structure Options where
  label_field : Int
  text_fields : Int
  task_name : String
deriving DecidableEq

/-- The default field options (`label_field=-4`, `text_fields=-3`)
with the NER (span-classification) task. -/
def optsNER : Options := ⟨-4, -3, "NER"⟩

/-- The default field options with the relation-extraction task. -/
def optsRE : Options := ⟨-4, -3, "RE"⟩

/-- Errors raised while parsing a TSV line.  `malformed` carries the data
interpolated into the `ValueError` message of `parse_tsv_line`
(field count, file name, line number, stripped line); `indexError` models
a Python `IndexError` from an out-of-range `label_field` lookup, whose
message carries neither file name nor line number. -/
inductive TsvError
  | malformed (nfields : Nat) (fn : String) (ln : Int) (line : List Char)
  | indexError
deriving DecidableEq

/-- `positive_index` from `common.py`:
`i if i >= 0 else len(fields) + i`. -/
def positive_index (i : Int) (fields : List (List Char)) : Int :=
  if i ≥ 0 then i else (fields.length : Int) + i

/-- `parse_tsv_line` from `common.py`: strip the trailing newline, split on
tabs, require at least 4 fields, pick the label by `label_field` and the
task-dependent text-field slice starting at `text_fields`
(3 fields for NER, 5 for relation extraction). -/
def parse_tsv_line (l : Line) (ln : Int) (fn : String) (opts : Options) :
    Except TsvError (List Char × List (List Char)) :=
  let l2 := rstripNl l
  let fields := splitTab l2
  if fields.length < 4 then
    .error (.malformed fields.length fn ln l2)
  else
    match pyGet fields opts.label_field with
    | none => .error .indexError
    | some label =>
      let text_end :=
        positive_index opts.text_fields fields +
          (if opts.task_name = "NER" then 3 else 5)
      .ok (label, pySlice fields opts.text_fields text_end)

/-- Parse consecutive lines, numbering them from `start`,
stopping at the first malformed line (Python: the exception propagates). -/
def parseLines (fn : String) (opts : Options) :
    List Line → Int → Except TsvError (List (List Char × List (List Char)))
  | [], _ => .ok []
  | l :: ls, ln => do
    let v ← parse_tsv_line l ln fn opts
    let vs ← parseLines fn opts ls (ln + 1)
    pure (v :: vs)

/-- `load_tsv_data` from `common.py`: a full sequential scan, parsing every
line with 1-based line numbers (`enumerate(f, start=1)`). -/
def load_tsv_data (lines : List Line) (fn : String) (opts : Options) :
    Except TsvError (List (List Char × List (List Char))) :=
  parseLines fn opts lines 1

/-! ## Batch offsets and random access (`load_batch_offsets`,
`load_batch_from_tsv`, `TsvSequence`) -/

/-- Total byte length of a list of raw lines. -/
def byteLen (lines : List Line) : Nat :=
  (lines.map List.length).sum

/-- The loop body of `load_batch_offsets`: scan lines with a running
0-based line number `ln` and byte offset `off`, recording `off` whenever
`ln % batch_size == 0`. -/
def batchOffsetsAux (bs : Nat) : List Line → Nat → Nat → List Nat
  | [], _, _ => []
  | l :: ls, ln, off =>
    (if ln % bs = 0 then [off] else []) ++
      batchOffsetsAux bs ls (ln + 1) (off + l.length)

/-- `load_batch_offsets` from `common.py`.  The second component models the
returned `ln`: the loop variable of `enumerate(f)` after the loop, which
for a non-empty file is the 0-based index of the *last* line
(`number of lines - 1`), and for an empty file is unbound
(a `NameError`, modelled as `none`).  The theorems below only use
`batch_size ≥ 1`; `batch_size = 0` raises `ZeroDivisionError` in Python. -/
def load_batch_offsets (lines : List Line) (bs : Nat) :
    List Nat × Option Nat :=
  (batchOffsetsAux bs lines 0 0,
   match lines with
   | [] => none
   | _ => some (lines.length - 1))

/-- `TsvSequence.__init__` stores the second component of
`load_batch_offsets` as `self.num_examples`. -/
def tsvSequenceNumExamples (lines : List Line) (bs : Nat) : Option Nat :=
  (load_batch_offsets lines bs).2

/-- `f.seek(offset)` followed by line iteration: return the lines of the
byte suffix of the file starting at `offset` (a seek landing inside a line
yields the rest of that line first). -/
def seekLines : List Line → Nat → List Line
  | [], _ => []
  | l :: ls, off =>
    if off = 0 then l :: ls
    else if off < l.length then l.drop off :: ls
    else seekLines ls (off - l.length)

/-- `load_batch_from_tsv` from `common.py`: seek to `offset`, then read and
parse lines until `batch_size` records have been collected, numbering them
`base_ln + 0, base_ln + 1, ...` (the Python `enumerate(f)` starts at 0). -/
def load_batch_from_tsv (lines : List Line) (base_ln : Int) (offset : Nat)
    (batch_size : Nat) (fn : String) (opts : Options) :
    Except TsvError (List (List Char × List (List Char))) :=
  parseLines fn opts ((seekLines lines offset).take batch_size) base_ln

/-! ## Label list loading (`load_labels`) and the label map -/

/-- The `ValueError` raised by `load_labels` on a repeated label. -/
inductive LabelError
  | duplicate (value : List Char)
deriving DecidableEq

/-- The loop of `load_labels`: strip each line, fail if the stripped value
was already collected, otherwise append it. -/
def loadLabelsAux (acc : List (List Char)) :
    List Line → Except LabelError (List (List Char))
  | [] => .ok acc
  | l :: ls =>
    let s := pyStrip l
    if s ∈ acc then .error (.duplicate s)
    else loadLabelsAux (acc ++ [s]) ls

/-- `load_labels` from `common.py`. -/
def load_labels (lines : List Line) : Except LabelError (List (List Char)) :=
  loadLabelsAux [] lines

/-- The label map `{t: i for i, t in enumerate(labels)}` built in
`test.py`, as a lookup of the first position of a label in the list
(the positions are unique because `load_labels` rejects duplicates). -/
def labelMap (labels : List (List Char)) (l : List Char) : Nat :=
  labels.indexOf l

/-! ## Wordpiece-artifact normalization (`fix_unused_tokens`) and
tokenization -/

/-- The loop of `fix_unused_tokens`, faithfully modelling the Python
`for i, v in enumerate(tokenized_text_before)` loop that mutates the list
it iterates over: at index `i`, if the current list has
`["unused", "##3"]` at positions `i, i+1`, append `"[unused3]"` to the
output and remove position `i+1`; otherwise copy the element at `i`.
Iteration stops once `i` reaches the (current) length. -/
def fixLoop (before : List Token) (i : Nat) : List Token :=
  if h : i < before.length then
    if (before.drop i).take 2 = ["unused", "##3"] then
      "[unused3]" :: fixLoop (before.eraseIdx (i + 1)) (i + 1)
    else
      before.get ⟨i, h⟩ :: fixLoop before (i + 1)
  else []
termination_by before.length - i
decreasing_by
  · have := List.length_eraseIdx_le before (i + 1)
    omega
  · omega

/-- `fix_unused_tokens` from `common.py`. -/
def fix_unused_tokens (before : List Token) : List Token :=
  fixLoop before 0

/-- Modelled from the spec's words (section 4.2 step 4 of the
relation-extraction mode): recombine every adjacent token pair consisting
of the placeholder base token `"unused"` immediately followed by its
numeric wordpiece continuation `"##3"` into the single bracketed
placeholder `"[unused3]"`, leaving every other token unchanged in its
original order. -/
def recombinePairs : List Token → List Token
  | [] => []
  | [t] => [t]
  | t :: u :: rest =>
    if t = "unused" ∧ u = "##3" then "[unused3]" :: recombinePairs rest
    else t :: recombinePairs (u :: rest)

/-- `tokenize_texts` from `common.py`: tokenize the three segments of each
span-classification example independently. -/
def tokenize_texts (texts : List (List Char × List Char × List Char))
    (tok : List Char → List Token) :
    List (List Token × List Token × List Token) :=
  texts.map fun x => (tok x.1, tok x.2.1, tok x.2.2)

/-- `tokenize_texts_re` from `common.py`: tokenize the five segments of
each relation-extraction example independently and run
`fix_unused_tokens` on each tokenized segment. -/
def tokenize_texts_re
    (texts : List (List Char × List Char × List Char × List Char × List Char))
    (tok : List Char → List Token) :
    List (List Token × List Token × List Token × List Token × List Token) :=
  texts.map fun x =>
    (fix_unused_tokens (tok x.1),
     fix_unused_tokens (tok x.2.1),
     fix_unused_tokens (tok x.2.2.1),
     fix_unused_tokens (tok x.2.2.2.1),
     fix_unused_tokens (tok x.2.2.2.2))

/-! ## Sequence assembly (`encode_tokenized`, `encode_tokenized_re`) -/

/-- The span-substitution step shared by both encoders: Python
`if not replace_span: tokens.extend(span) else: tokens.append(replace_span)`.
`none` models `replace_span=None`; `some ""` is also falsy in Python. -/
def spanPart (replace_span : Option Token) (span : List Token) : List Token :=
  match replace_span with
  | none => span
  | some t => if t = "" then span else [t]

/-- Lines 378-382 of `common.py` (`encode_tokenized`): with
`center = int(seq_len/2)`, truncate the left context to its last
`center-1` tokens when longer, otherwise left-pad it with `"[PAD]"` to
exactly `center-1` tokens. -/
def adjustLeft (left : List Token) (seq_len : Nat) : List Token :=
  let c1 : Int := (seq_len / 2 : Nat) - 1
  if (left.length : Int) > c1 then
    pySliceFrom left ((left.length : Int) - c1)
  else
    List.replicate (c1 - (left.length : Int)).toNat "[PAD]" ++ left

/-- Lines 377-388 of `common.py`: `['[CLS]']`, the adjusted left context,
the span tokens (or the replacement token), the right context. -/
def assembleTokens (left span right : List Token) (seq_len : Nat)
    (replace_span : Option Token) : List Token :=
  ["[CLS]"] ++ adjustLeft left seq_len ++ spanPart replace_span span ++ right

/-- Lines 389-394 of `common.py`, shared with `encode_tokenized_re`:
truncate the assembled sequence to its first `seq_len-1` tokens when it has
at least that many, append `'[SEP]'`, right-pad with `'[PAD]'` to
`seq_len`. -/
def finalizeTokens (ts : List Token) (seq_len : Nat) : List Token :=
  let ts2 :=
    if (ts.length : Int) ≥ (seq_len : Int) - 1 then
      pySliceTo ts ((seq_len : Int) - 1)
    else ts
  let ts3 := ts2 ++ ["[SEP]"]
  ts3 ++ List.replicate (seq_len - ts3.length) "[PAD]"

/-- The token sequence produced for one span-classification example by the
loop body of `encode_tokenized`. -/
def encodeTokens (left span right : List Token) (seq_len : Nat)
    (replace_span : Option Token) : List Token :=
  finalizeTokens (assembleTokens left span right seq_len replace_span) seq_len

/-- `encode_tokenized` from `common.py`: per example, the token ids
(`convert_tokens_to_ids` modelled as mapping the vocabulary function
`vocab` over the tokens) and the all-zero segment ids. -/
def encode_tokenized
    (tokenized : List (List Token × List Token × List Token))
    (vocab : Token → Nat) (seq_len : Nat) (replace_span : Option Token) :
    List (List Nat) × List (List Nat) :=
  (tokenized.map fun x =>
     (encodeTokens x.1 x.2.1 x.2.2 seq_len replace_span).map vocab,
   tokenized.map fun _ => List.replicate seq_len 0)

/-- Lines 408-412 of `common.py` (`encode_tokenized_re`): with
`center = int(seq_len/2)` and `r = int(round(len(between)/2))`, if
`len(sent_start + entity1) + r > center - 1` drop the head of
`sent_start`, keeping its last tokens from index
`len(sent_start + entity1) + r - (center-1)` on; otherwise left-pad
`sent_start` with `(center-1) - len(sent_start + entity1) + r` copies of
`'[PAD]'`. -/
def adjustSentStart (ss e1 btw : List Token) (seq_len : Nat) : List Token :=
  let c1 : Int := (seq_len / 2 : Nat) - 1
  let r : Int := pyRoundHalf btw.length
  if ((ss ++ e1).length : Int) + r > c1 then
    pySliceFrom ss (((ss ++ e1).length : Int) + r - c1)
  else
    List.replicate ((c1 - ((ss ++ e1).length : Int)) + r).toNat "[PAD]" ++ ss

/-- Lines 407-425 of `common.py`: `['[CLS]']`, the adjusted sentence start,
entity 1 (or replacement token A), the between text, entity 2 (or
replacement token B), the sentence end. -/
def assembleTokensRe (ss e1 btw e2 se : List Token) (seq_len : Nat)
    (rsA rsB : Option Token) : List Token :=
  ["[CLS]"] ++ adjustSentStart ss e1 btw seq_len ++ spanPart rsA e1 ++
    btw ++ spanPart rsB e2 ++ se

/-- The token sequence produced for one relation-extraction example by the
loop body of `encode_tokenized_re`. -/
def encodeTokensRe (ss e1 btw e2 se : List Token) (seq_len : Nat)
    (rsA rsB : Option Token) : List Token :=
  finalizeTokens (assembleTokensRe ss e1 btw e2 se seq_len rsA rsB) seq_len

/-- `encode_tokenized_re` from `common.py` (the computed `input_mask` is
discarded by the source and omitted here): per example, the token ids and
the all-zero segment ids. -/
def encode_tokenized_re
    (tokenized :
      List (List Token × List Token × List Token × List Token × List Token))
    (vocab : Token → Nat) (seq_len : Nat) (rsA rsB : Option Token) :
    List (List Nat) × List (List Nat) :=
  (tokenized.map fun x =>
     (encodeTokensRe x.1 x.2.1 x.2.2.1 x.2.2.2.1 x.2.2.2.2
        seq_len rsA rsB).map vocab,
   tokenized.map fun _ => List.replicate seq_len 0)

/-! ## Helper lemmas -/

/-- For `seq_len ≥ 1` the shared truncate/`[SEP]`/pad step always produces
exactly `seq_len` tokens. -/
theorem length_finalizeTokens (ts : List Token) (n : Nat) (hn : 1 ≤ n) :
    (finalizeTokens ts n).length = n := by
  unfold finalizeTokens pySliceTo
  split
  · rename_i h
    rw [if_neg (by omega)]
    simp only [List.length_append, List.length_take, List.length_replicate,
      List.length_cons, List.length_nil]
    omega
  · rename_i h
    simp only [List.length_append, List.length_replicate, List.length_cons,
      List.length_nil]
    omega

theorem length_encodeTokens (left span right : List Token) (n : Nat)
    (rs : Option Token) (hn : 1 ≤ n) :
    (encodeTokens left span right n rs).length = n :=
  length_finalizeTokens _ n hn

theorem length_encodeTokensRe (ss e1 btw e2 se : List Token) (n : Nat)
    (rsA rsB : Option Token) (hn : 1 ≤ n) :
    (encodeTokensRe ss e1 btw e2 se n rsA rsB).length = n :=
  length_finalizeTokens _ n hn

/-- The iteration of `fixLoop` never looks at positions below `i`, so
running it on `pre ++ rest` from index `pre.length` processes exactly
`rest`, recombining adjacent `("unused", "##3")` pairs left to right. -/
theorem fixLoop_eq_recombine : ∀ (n : Nat) (rest pre : List Token),
    rest.length ≤ n →
    fixLoop (pre ++ rest) pre.length = recombinePairs rest := by
  intro n
  induction n with
  | zero =>
    intro rest pre h
    have hr : rest = [] := List.length_eq_zero.mp (Nat.le_zero.mp h)
    subst hr
    unfold fixLoop
    simp [recombinePairs]
  | succ n ih =>
    intro rest pre h
    match rest with
    | [] =>
      unfold fixLoop
      simp [recombinePairs]
    | t :: r =>
      have hlt : pre.length < (pre ++ t :: r).length := by simp
      have hdrop : (pre ++ t :: r).drop pre.length = t :: r :=
        List.drop_left pre (t :: r)
      unfold fixLoop
      rw [dif_pos hlt, hdrop]
      by_cases hp : (t :: r).take 2 = ["unused", "##3"]
      · cases r with
        | nil => simp at hp
        | cons u r2 =>
          obtain ⟨ht, hu⟩ : t = "unused" ∧ u = "##3" := by
            simpa using hp
          subst ht; subst hu
          rw [if_pos hp]
          have he : (pre ++ "unused" :: "##3" :: r2).eraseIdx
                (pre.length + 1) = pre ++ "unused" :: r2 := by
            rw [List.eraseIdx_append_of_length_le (Nat.le_add_right _ _)]
            simp
          rw [he]
          have h2 : recombinePairs ("unused" :: "##3" :: r2)
              = "[unused3]" :: recombinePairs r2 := by
            simp [recombinePairs]
          rw [h2]
          congr 1
          have h3 := ih r2 (pre ++ ["unused"])
            (by simp only [List.length_cons] at h; omega)
          simp only [List.length_append, List.length_cons,
            List.length_nil] at h3
          rw [List.append_cons]
          simpa using h3
      · rw [if_neg hp]
        have hget : (pre ++ t :: r).get ⟨pre.length, hlt⟩ = t := by
          have h2 := List.drop_eq_getElem_cons
            (n := pre.length) (l := pre ++ t :: r) hlt
          rw [hdrop] at h2
          injection h2 with h3 _
          simpa using h3.symm
        have h4 : recombinePairs (t :: r) = t :: recombinePairs r := by
          cases r with
          | nil => rfl
          | cons u r2 =>
            have hne : ¬(t = "unused" ∧ u = "##3") := by
              rintro ⟨h5, h6⟩
              subst h5; subst h6
              exact hp rfl
            simp [recombinePairs, hne]
        rw [hget, h4]
        congr 1
        have h3 := ih r (pre ++ [t])
          (by simp only [List.length_cons] at h; omega)
        simp only [List.length_append, List.length_cons,
          List.length_nil] at h3
        rw [List.append_cons]
        simpa using h3

/-- The mutating loop of `fix_unused_tokens` computes exactly the
left-to-right recombination of adjacent `("unused", "##3")` pairs. -/
theorem fix_unused_eq_recombine (l : List Token) :
    fix_unused_tokens l = recombinePairs l := by
  have h := fixLoop_eq_recombine l.length l [] (Nat.le_refl _)
  simpa [fix_unused_tokens] using h

theorem byteLen_append (a b : List Line) :
    byteLen (a ++ b) = byteLen a + byteLen b := by
  simp [byteLen]

theorem take_add_split (l : List α) (m k : Nat) :
    l.take (m + k) = l.take m ++ (l.drop m).take k := by
  induction l generalizing m with
  | nil => simp
  | cons a as ih =>
    cases m with
    | zero => simp
    | succ m => simp [Nat.succ_add, ih]

/-- Unfolding `batchOffsetsAux` on a non-empty list. -/
theorem batchOffsetsAux_cons (bs : Nat) (l : Line) (ls : List Line)
    (ln off : Nat) :
    batchOffsetsAux bs (l :: ls) ln off
      = (if ln % bs = 0 then [off] else [])
          ++ batchOffsetsAux bs ls (ln + 1) (off + l.length) := rfl

/-- Walking `batchOffsetsAux` from a line number `i` steps past a batch
boundary (`0 < i < bs`) records nothing until the next multiple of `bs`. -/
theorem batchOffsetsAux_shift (bs : Nat) :
    ∀ (ls : List Line) (i q off : Nat), 0 < i → i < bs →
      batchOffsetsAux bs ls (q * bs + i) off
        = batchOffsetsAux bs (ls.drop (bs - i)) ((q + 1) * bs)
            (off + byteLen (ls.take (bs - i))) := by
  intro ls
  induction ls with
  | nil =>
    intro i q off h0 hib
    simp [batchOffsetsAux]
  | cons l ls ih =>
    intro i q off h0 hib
    have hmod : (q * bs + i) % bs = i := by
      rw [Nat.add_comm, Nat.add_mul_mod_self_right]
      exact Nat.mod_eq_of_lt hib
    rw [batchOffsetsAux_cons]
    rw [if_neg (by omega)]
    simp only [List.nil_append]
    by_cases hi1 : i + 1 < bs
    · rw [show q * bs + i + 1 = q * bs + (i + 1) from rfl]
      rw [ih (i + 1) q (off + l.length) (by omega) hi1]
      have hbsi : bs - i = (bs - (i + 1)) + 1 := by omega
      rw [hbsi, List.drop_succ_cons, List.take_succ_cons]
      have hb : byteLen (l :: (ls.take (bs - (i + 1))))
          = l.length + byteLen (ls.take (bs - (i + 1))) := by
        simp [byteLen]
      rw [hb]
      congr 1
      omega
    · have hieq : i + 1 = bs := by omega
      rw [show q * bs + i + 1 = (q + 1) * bs by rw [Nat.succ_mul]; omega]
      have hbsi : bs - i = 1 := by omega
      rw [hbsi]
      rw [List.take_cons (by omega), List.drop_one]
      simp [byteLen]

/-- One batch step of `batchOffsetsAux`: at a batch boundary the current
offset is recorded, and the scan continues after the next `bs` lines. -/
theorem batchOffsetsAux_chunk (bs : Nat) (hbs : 0 < bs) (l : Line)
    (ls : List Line) (q off : Nat) :
    batchOffsetsAux bs (l :: ls) (q * bs) off
      = off :: batchOffsetsAux bs ((l :: ls).drop bs) ((q + 1) * bs)
          (off + byteLen ((l :: ls).take bs)) := by
  rw [batchOffsetsAux_cons, if_pos (Nat.mul_mod_left q bs)]
  simp only [List.cons_append, List.nil_append]
  congr 1
  obtain ⟨b, rfl⟩ : ∃ b, bs = b + 1 := ⟨bs - 1, by omega⟩
  rw [List.drop_succ_cons, List.take_succ_cons]
  have hb : byteLen (l :: (ls.take b)) = l.length + byteLen (ls.take b) := by
    simp [byteLen]
  rw [hb]
  by_cases hb1 : 0 < b
  · have hsh := batchOffsetsAux_shift (b + 1) ls 1 q (off + l.length)
      (by omega) (by omega)
    rw [hsh, show b + 1 - 1 = b by omega]
    congr 1
    omega
  · have hb0 : b = 0 := by omega
    subst hb0
    simp [byteLen, Nat.mul_one]

/-- Element `k` of the offset list built from a batch boundary is the byte
length of the first `k * bs` lines, shifted by the running offset. -/
theorem batchOffsetsAux_get (bs : Nat) (hbs : 0 < bs) :
    ∀ (k : Nat) (lines : List Line) (q ln off : Nat), ln = q * bs →
      k < (batchOffsetsAux bs lines ln off).length →
      (batchOffsetsAux bs lines ln off)[k]?
        = some (off + byteLen (lines.take (k * bs))) := by
  intro k
  induction k with
  | zero =>
    intro lines q ln off hln h
    subst hln
    cases lines with
    | nil => simp [batchOffsetsAux] at h
    | cons l ls =>
      rw [batchOffsetsAux_chunk bs hbs l ls q off]
      simp [byteLen]
  | succ k ih =>
    intro lines q ln off hln h
    subst hln
    cases lines with
    | nil => simp [batchOffsetsAux] at h
    | cons l ls =>
      rw [batchOffsetsAux_chunk bs hbs l ls q off] at h
      rw [batchOffsetsAux_chunk bs hbs l ls q off]
      rw [List.getElem?_cons_succ]
      rw [ih ((l :: ls).drop bs) (q + 1) _ _ rfl (by simpa using h)]
      rw [show (k + 1) * bs = bs + k * bs by ring]
      rw [take_add_split (l :: ls) bs (k * bs), byteLen_append]
      congr 1
      omega

/-- Offset `k` of `load_batch_offsets` is the total byte length of the
lines before batch `k`. -/
theorem load_batch_offsets_get (lines : List Line) (bs k : Nat)
    (hbs : 0 < bs) (h : k < (load_batch_offsets lines bs).1.length) :
    (load_batch_offsets lines bs).1.get ⟨k, h⟩
      = byteLen (lines.take (k * bs)) := by
  have h2 : k < (batchOffsetsAux bs lines 0 0).length := h
  have h3 := batchOffsetsAux_get bs hbs k lines 0 0 0 (by simp) h2
  rw [List.getElem?_eq_getElem h2] at h3
  injection h3 with h4
  rw [List.get_eq_getElem]
  exact h4.trans (by omega)

/-- Seeking to the total byte length of the first `n` lines and iterating
lines yields exactly the remaining lines (every stored line is
non-empty). -/
theorem seekLines_byteLen : ∀ (lines : List Line), (∀ l ∈ lines, l ≠ []) →
    ∀ n : Nat, seekLines lines (byteLen (lines.take n)) = lines.drop n := by
  intro lines
  induction lines with
  | nil =>
    intro _ n
    simp [seekLines]
  | cons l ls ih =>
    intro hne n
    cases n with
    | zero => simp [seekLines, byteLen]
    | succ n =>
      have hl : l ≠ [] := hne l (by simp)
      have hlen : 0 < l.length := List.length_pos.mpr hl
      have hBL : byteLen ((l :: ls).take (n + 1))
          = l.length + byteLen (ls.take n) := by
        simp [byteLen, List.take_succ_cons]
      rw [hBL]
      unfold seekLines
      rw [if_neg (by omega), if_neg (by omega)]
      rw [show l.length + byteLen (ls.take n) - l.length
            = byteLen (ls.take n) by omega]
      rw [List.drop_succ_cons]
      exact ih (fun x hx => hne x (by simp [hx])) n

theorem except_bind_ok {α β ε : Type} (v : α) (f : α → Except ε β) :
    (Except.ok v >>= f) = f v := rfl

theorem except_bind_error {α β ε : Type} (e : ε) (f : α → Except ε β) :
    ((Except.error e : Except ε α) >>= f) = Except.error e := rfl

/-- Unfolding `parseLines` on a non-empty list. -/
theorem parseLines_cons (fn : String) (opts : Options) (l : Line)
    (ls : List Line) (ln : Int) :
    parseLines fn opts (l :: ls) ln
      = match parse_tsv_line l ln fn opts with
        | .error e => .error e
        | .ok v =>
          match parseLines fn opts ls (ln + 1) with
          | .error e => .error e
          | .ok vs => .ok (v :: vs) := by
  cases hE : parse_tsv_line l ln fn opts with
  | error e =>
    simp only [parseLines, hE, except_bind_error]
  | ok v =>
    cases hL : parseLines fn opts ls (ln + 1) with
    | error e =>
      simp only [parseLines, hE, hL, except_bind_ok, except_bind_error]
    | ok vs =>
      simp only [parseLines, hE, hL, except_bind_ok]
      rfl

/-- A successful parse of a line does not depend on the line number or the
file name (they only feed the error message). -/
theorem parse_tsv_line_ok_irrel (l : Line) (ln ln2 : Int) (fn fn2 : String)
    (opts : Options) (v : List Char × List (List Char))
    (h : parse_tsv_line l ln fn opts = .ok v) :
    parse_tsv_line l ln2 fn2 opts = .ok v := by
  simp only [parse_tsv_line] at h ⊢
  by_cases h4 : (splitTab (rstripNl l)).length < 4
  · rw [if_pos h4] at h
    cases h
  · rw [if_neg h4] at h ⊢
    cases hg : pyGet (splitTab (rstripNl l)) opts.label_field with
    | none =>
      simp only [hg] at h
      exact Except.noConfusion h
    | some lab =>
      simp only [hg] at h ⊢
      exact h

/-- Successful `parseLines` results do not depend on the starting line
number or the file name. -/
theorem parseLines_ok_irrel : ∀ (ls : List Line) (ln ln2 : Int)
    (fn fn2 : String) (opts : Options)
    (vs : List (List Char × List (List Char))),
    parseLines fn opts ls ln = .ok vs →
    parseLines fn2 opts ls ln2 = .ok vs := by
  intro ls
  induction ls with
  | nil =>
    intro ln ln2 fn fn2 opts vs h
    simpa [parseLines] using h
  | cons l ls ih =>
    intro ln ln2 fn fn2 opts vs h
    rw [parseLines_cons] at h ⊢
    cases hE : parse_tsv_line l ln fn opts with
    | error e =>
      simp only [hE] at h
      exact Except.noConfusion h
    | ok v =>
      simp only [hE] at h
      cases hL : parseLines fn opts ls (ln + 1) with
      | error e =>
        simp only [hL] at h
        exact Except.noConfusion h
      | ok vs2 =>
        simp only [hL] at h
        injection h with h2
        subst h2
        rw [parse_tsv_line_ok_irrel l ln ln2 fn fn2 opts v hE]
        rw [ih (ln + 1) (ln2 + 1) fn fn2 opts vs2 hL]

/-- Dropping `m` lines of a successfully parsed file drops the first `m`
parsed records. -/
theorem parseLines_drop : ∀ (m : Nat) (ls : List Line) (ln ln2 : Int)
    (fn fn2 : String) (opts : Options)
    (vs : List (List Char × List (List Char))),
    parseLines fn opts ls ln = .ok vs →
    parseLines fn2 opts (ls.drop m) ln2 = .ok (vs.drop m) := by
  intro m
  induction m with
  | zero =>
    intro ls ln ln2 fn fn2 opts vs h
    simpa using parseLines_ok_irrel ls ln ln2 fn fn2 opts vs h
  | succ m ih =>
    intro ls ln ln2 fn fn2 opts vs h
    cases ls with
    | nil =>
      simp only [parseLines] at h
      injection h with h2
      subst h2
      simp [parseLines]
    | cons l ls2 =>
      rw [parseLines_cons] at h
      cases hE : parse_tsv_line l ln fn opts with
      | error e =>
        simp only [hE] at h
        exact Except.noConfusion h
      | ok v =>
        simp only [hE] at h
        cases hL : parseLines fn opts ls2 (ln + 1) with
        | error e =>
          simp only [hL] at h
          exact Except.noConfusion h
        | ok vs2 =>
          simp only [hL] at h
          injection h with h2
          subst h2
          simpa using ih ls2 (ln + 1) ln2 fn fn2 opts vs2 hL

/-- Taking the first `b` lines of a successfully parsed file takes the
first `b` parsed records. -/
theorem parseLines_take : ∀ (b : Nat) (ls : List Line) (ln : Int)
    (fn : String) (opts : Options)
    (vs : List (List Char × List (List Char))),
    parseLines fn opts ls ln = .ok vs →
    parseLines fn opts (ls.take b) ln = .ok (vs.take b) := by
  intro b
  induction b with
  | zero =>
    intro ls ln fn opts vs h
    simp [parseLines]
  | succ b ih =>
    intro ls ln fn opts vs h
    cases ls with
    | nil =>
      simp only [parseLines] at h
      injection h with h2
      subst h2
      simp [parseLines]
    | cons l ls2 =>
      rw [parseLines_cons] at h
      cases hE : parse_tsv_line l ln fn opts with
      | error e =>
        simp only [hE] at h
        exact Except.noConfusion h
      | ok v =>
        simp only [hE] at h
        cases hL : parseLines fn opts ls2 (ln + 1) with
        | error e =>
          simp only [hL] at h
          exact Except.noConfusion h
        | ok vs2 =>
          simp only [hL] at h
          injection h with h2
          subst h2
          rw [List.take_succ_cons, List.take_succ_cons, parseLines_cons]
          simp only [hE, ih ls2 (ln + 1) fn opts vs2 hL]

/-! ## Claims -/

/-- A concrete relation-extraction example whose entities are far apart
(20 tokens of between-text), encoded with `seq_len = 16`. -/
def farApartTokens : List Token :=
  encodeTokensRe ["s1", "s2"] ["E1"] (List.replicate 20 "b") ["E2"] []
    16 none none

/-- C1, counterexample: for the spec's own scenario line
(`label_field=-4`, `text_fields=-3`, `seq_len=10`, no span replacement)
the code inserts two `[PAD]` tokens between `[CLS]` and the left context
(the left context is padded to `center-1 = 4` tokens), so the produced
token sequence is not `[CLS] left text SPAN right text [SEP]` followed by
padding. -/
theorem c1_counterexample :
    parse_tsv_line "ctx\tctxB\tlabelX\tleft text\tSPAN\tright text".toList
        1 "data.tsv" optsNER
      = .ok ("labelX".toList,
          ["left text".toList, "SPAN".toList, "right text".toList]) ∧
    tokenize_texts
        [("left text".toList, "SPAN".toList, "right text".toList)] wsTokenize
      = [(["left", "text"], ["SPAN"], ["right", "text"])] ∧
    encodeTokens ["left", "text"] ["SPAN"] ["right", "text"] 10 none
      = ["[CLS]", "[PAD]", "[PAD]", "left", "text", "SPAN", "right", "text",
         "[SEP]", "[PAD]"] ∧
    encodeTokens ["left", "text"] ["SPAN"] ["right", "text"] 10 none
      ≠ ["[CLS]", "left", "text", "SPAN", "right", "text", "[SEP]", "[PAD]",
         "[PAD]", "[PAD]"] :=
  ⟨by rfl, by rfl, by decide, by decide⟩

/-- C1, amended: the encoder builds `[CLS]` + adjusted-left + span-tokens
(or the replacement token) + right-tokens, where the left context is
first truncated from its head to its last `center-1` tokens or left-padded
with `[PAD]` to exactly `center-1` tokens (`center = seq_len // 2`); the
assembled sequence is then truncated only from its right end, `[SEP]` is
appended and the result right-padded.  For the scenario line the tokens
are `[CLS] [PAD] [PAD] left text SPAN right text [SEP] [PAD]` and the
label id is `label_map['labelX']`. -/
theorem c1_amended :
    (∀ (left span right : List Token) (n : Nat) (rs : Option Token),
        ∃ m p, encodeTokens left span right n rs
          = (assembleTokens left span right n rs).take m ++ ["[SEP]"]
              ++ List.replicate p "[PAD]") ∧
    encodeTokens (wsTokenize "left text".toList) (wsTokenize "SPAN".toList)
        (wsTokenize "right text".toList) 10 none
      = ["[CLS]", "[PAD]", "[PAD]", "left", "text", "SPAN", "right", "text",
         "[SEP]", "[PAD]"] ∧
    labelMap ["labelO".toList, "labelX".toList] "labelX".toList = 1 := by
  refine ⟨?_, by decide, by decide⟩
  intro left span right n rs
  unfold encodeTokens finalizeTokens pySliceTo
  dsimp only
  split
  · exact ⟨_, _, by rw [List.append_assoc]⟩
  · exact ⟨(assembleTokens left span right n rs).length, _,
      by rw [List.take_length, List.append_assoc]⟩

/-- C3, counterexample: in the relation-extraction else-branch the pad
count is `(center-1) - len(sent-start) - len(entity1) + round(len(between)/2)`
(the rounded half is *added*, not subtracted): with `seq_len = 8`
(`center-1 = 3`), `sent-start = []`, `entity1 = ["E"]`,
`between = ["b", "c"]`, the code inserts 3 `[PAD]` tokens while the
claim's formula `(center-1) - (0 + 1 + 1)` gives 1. -/
theorem c3_counterexample :
    adjustSentStart [] ["E"] ["b", "c"] 8 = ["[PAD]", "[PAD]", "[PAD]"] ∧
    adjustSentStart [] ["E"] ["b", "c"] 8
      ≠ List.replicate
          (Int.toNat ((8 / 2 - 1) - (0 + 1 + (pyRoundHalf 2 : Int)))) "[PAD]"
          ++ [] := by
  exact ⟨by decide, by decide⟩

/-- C3, amended: when
`len(sent-start) + len(entity1) + round(len(between)/2) ≤ center-1`, the
encoder left-pads `sent-start` with
`(center-1) - len(sent-start) - len(entity1) + round(len(between)/2)`
`[PAD]` tokens, so that exactly
`center-1 - len(entity1) + round(len(between)/2)` tokens stand between
`[CLS]` and the first entity-1 token. -/
theorem c3_amended (ss e1 btw : List Token) (n : Nat)
    (h : ((ss ++ e1).length : Int) + pyRoundHalf btw.length
          ≤ ((n / 2 : Nat) : Int) - 1) :
    adjustSentStart ss e1 btw n
      = List.replicate
          (((((n / 2 : Nat) : Int) - 1 - ss.length - e1.length)
             + pyRoundHalf btw.length)).toNat "[PAD]" ++ ss ∧
    (adjustSentStart ss e1 btw n).length
      = ((((n / 2 : Nat) : Int) - 1 - e1.length)
          + pyRoundHalf btw.length).toNat := by
  have hl : ((ss ++ e1).length : Int) = (ss.length : Int) + e1.length := by
    simp [List.length_append]
  unfold adjustSentStart
  rw [if_neg (by rw [hl] at h ⊢; omega)]
  constructor
  · rw [hl]; ring_nf
  · rw [hl]
    simp only [List.length_append, List.length_replicate]
    rw [hl] at h
    omega

/-- C3, witness for `c3_amended` at a concrete input satisfying its
hypothesis. -/
theorem c3_amended_witness :
    adjustSentStart [] ["E"] ["b", "c"] 8
      = List.replicate
          (((((8 / 2 : Nat) : Int) - 1 - ([] : List Token).length
              - (["E"] : List Token).length)
             + pyRoundHalf (["b", "c"] : List Token).length)).toNat "[PAD]"
          ++ [] ∧
    (adjustSentStart [] ["E"] ["b", "c"] 8).length
      = ((((8 / 2 : Nat) : Int) - 1 - (["E"] : List Token).length)
          + pyRoundHalf (["b", "c"] : List Token).length).toNat :=
  c3_amended [] ["E"] ["b", "c"] 8 (by decide)

/-- C5, counterexample: with far-apart entities (20 between-tokens) and
`seq_len = 16` (`center = 8`), the first entity-1 token lands at index 1 —
the entire sentence start was consumed by the head-truncation — not at
`center ± 1`. -/
theorem c5_counterexample :
    farApartTokens
      = ["[CLS]", "E1"] ++ List.replicate 13 "b" ++ ["[SEP]"] ∧
    farApartTokens.indexOf "E1" = 1 ∧
    ¬ (16 / 2 - 1 ≤ farApartTokens.indexOf "E1" ∧
        farApartTokens.indexOf "E1" ≤ 16 / 2 + 1) := by
  exact ⟨by decide, by decide, by decide⟩

/-- C5, amended: in the truncation branch
(`len(sent-start)+len(entity1)+round(len(between)/2) > center-1`) the
sentence start is truncated from its head only — the kept portion is
always a suffix of the original — but the first entity-1 token need not
land near index `center`: in the far-apart scenario with `seq_len = 16`
it lands at index 1. -/
theorem c5_amended :
    (∀ (ss e1 btw : List Token) (n : Nat),
        ((ss ++ e1).length : Int) + pyRoundHalf btw.length
            > ((n / 2 : Nat) : Int) - 1 →
        (adjustSentStart ss e1 btw n).IsSuffix ss) ∧
    farApartTokens.indexOf "E1" = 1 := by
  constructor
  · intro ss e1 btw n h
    unfold adjustSentStart
    rw [if_pos (by omega)]
    simp only [pySliceFrom]
    exact List.drop_suffix _ _
  · decide

/-- C5, witness for the truncation branch of `c5_amended` at a concrete
input satisfying its hypothesis. -/
theorem c5_amended_witness :
    (adjustSentStart ["a"] ["E"] (List.replicate 20 "b") 4).IsSuffix ["a"] :=
  c5_amended.1 ["a"] ["E"] (List.replicate 20 "b") 4 (by decide)

/-- C4: in both modes every produced `token_ids` row and every
`segment_ids` row has length exactly `seq_len` (for any `seq_len ≥ 1`),
so the sanity-check assertions of `encode_tokenized` and
`encode_tokenized_re` always hold. -/
theorem c4_encoded_lengths (n : Nat) (hn : 1 ≤ n)
    (tokenized : List (List Token × List Token × List Token))
    (tokenizedRe :
      List (List Token × List Token × List Token × List Token × List Token))
    (vocab : Token → Nat) (rs rsA rsB : Option Token) :
    ((encode_tokenized tokenized vocab n rs).1.map List.length
        = List.replicate tokenized.length n ∧
      (encode_tokenized tokenized vocab n rs).2.map List.length
        = List.replicate tokenized.length n) ∧
    ((encode_tokenized_re tokenizedRe vocab n rsA rsB).1.map List.length
        = List.replicate tokenizedRe.length n ∧
      (encode_tokenized_re tokenizedRe vocab n rsA rsB).2.map List.length
        = List.replicate tokenizedRe.length n) := by
  unfold encode_tokenized encode_tokenized_re
  simp only [List.map_map]
  refine ⟨⟨?_, ?_⟩, ?_, ?_⟩ <;>
    [skip; skip; skip; skip] <;>
    · rw [List.eq_replicate_iff]
      refine ⟨by simp, ?_⟩
      intro b hb
      simp only [List.mem_map, Function.comp_apply] at hb
      obtain ⟨x, _, rfl⟩ := hb
      simp [length_encodeTokens, length_encodeTokensRe,
        length_finalizeTokens _ n hn, encodeTokens, encodeTokensRe]

/-- C4, witness for `c4_encoded_lengths` at concrete inputs. -/
theorem c4_encoded_lengths_witness :
    ((encode_tokenized [(["l"], ["s"], ["r"])] (fun _ => 0) 10 none).1.map
          List.length
        = List.replicate ([(["l"], ["s"], ["r"])] :
            List (List Token × List Token × List Token)).length 10 ∧
      (encode_tokenized [(["l"], ["s"], ["r"])] (fun _ => 0) 10 none).2.map
          List.length
        = List.replicate ([(["l"], ["s"], ["r"])] :
            List (List Token × List Token × List Token)).length 10) ∧
    ((encode_tokenized_re [([], ["a"], [], ["b"], [])] (fun _ => 0) 10
            none none).1.map List.length
        = List.replicate ([([], ["a"], [], ["b"], [])] :
            List (List Token × List Token × List Token × List Token ×
              List Token)).length 10 ∧
      (encode_tokenized_re [([], ["a"], [], ["b"], [])] (fun _ => 0) 10
            none none).2.map List.length
        = List.replicate ([([], ["a"], [], ["b"], [])] :
            List (List Token × List Token × List Token × List Token ×
              List Token)).length 10) :=
  c4_encoded_lengths 10 (by decide) [(["l"], ["s"], ["r"])]
    [([], ["a"], [], ["b"], [])] (fun _ => 0) none none none

/-- C10: span substitution triggers only on a non-empty replacement token;
the empty string is falsy in Python, so `replace_span = ""` (in either
entity slot of the relation-extraction mode as well) behaves exactly like
no replacement at all. -/
theorem c10_empty_replacement_token :
    (∀ s : List Token, spanPart (some "") s = s ∧ spanPart none s = s) ∧
    (∀ (t : Token) (s : List Token), t ≠ "" → spanPart (some t) s = [t]) ∧
    (∀ tokenized vocab n, encode_tokenized tokenized vocab n (some "")
        = encode_tokenized tokenized vocab n none) ∧
    (∀ tokenizedRe vocab n rsB,
        encode_tokenized_re tokenizedRe vocab n (some "") rsB
          = encode_tokenized_re tokenizedRe vocab n none rsB) ∧
    (∀ tokenizedRe vocab n rsA,
        encode_tokenized_re tokenizedRe vocab n rsA (some "")
          = encode_tokenized_re tokenizedRe vocab n rsA none) := by
  have hsp : spanPart (some "") = spanPart none := by
    funext s; simp [spanPart]
  refine ⟨fun s => ⟨by simp [spanPart], rfl⟩,
    fun t s ht => by simp [spanPart, ht], ?_, ?_, ?_⟩ <;> intros <;>
    simp [encode_tokenized, encode_tokenized_re, encodeTokens,
      encodeTokensRe, assembleTokens, assembleTokensRe, hsp]

/-- C10, witness: a non-empty replacement token does substitute. -/
theorem c10_empty_replacement_token_witness :
    spanPart (some "[unused1]") ["a", "b"] = ["[unused1]"] :=
  c10_empty_replacement_token.2.1 "[unused1]" ["a", "b"] (by decide)

/-- C9: `fix_unused_tokens` recombines every adjacent
`("unused", "##3")` pair into the single token `"[unused3]"` and leaves
all other tokens unchanged in their original order (it equals the
left-to-right pairwise recombination `recombinePairs`), and
`tokenize_texts_re` applies it to each of the five tokenized segments
independently, before sequence assembly. -/
theorem c9_placeholder_normalization :
    (∀ l : List Token, fix_unused_tokens l = recombinePairs l) ∧
    (∀ (texts : List (List Char × List Char × List Char × List Char ×
          List Char)) (tok : List Char → List Token),
        tokenize_texts_re texts tok
          = texts.map fun x =>
              (recombinePairs (tok x.1), recombinePairs (tok x.2.1),
               recombinePairs (tok x.2.2.1), recombinePairs (tok x.2.2.2.1),
               recombinePairs (tok x.2.2.2.2))) := by
  refine ⟨fix_unused_eq_recombine, ?_⟩
  intro texts tok
  unfold tokenize_texts_re
  simp [fix_unused_eq_recombine]

/-- A successful `load_labels` run returns exactly the stripped input
lines, and the result extends its accumulator without ever creating a
duplicate. -/
theorem loadLabelsAux_ok : ∀ (ls : List Line) (acc labels : List (List Char)),
    loadLabelsAux acc ls = .ok labels →
    labels = acc ++ ls.map pyStrip ∧ (acc.Nodup → labels.Nodup) := by
  intro ls
  induction ls with
  | nil =>
    intro acc labels h
    simp only [loadLabelsAux] at h
    cases h
    simp
  | cons l ls ih =>
    intro acc labels h
    simp only [loadLabelsAux] at h
    by_cases hm : pyStrip l ∈ acc
    · rw [if_pos hm] at h
      cases h
    · rw [if_neg hm] at h
      obtain ⟨h1, h2⟩ := ih (acc ++ [pyStrip l]) labels h
      refine ⟨by rw [h1]; simp, ?_⟩
      intro hnd
      exact h2 (by simp [List.nodup_append, hnd, hm])

/-- On a duplicate-free list, looking up the element at position `i`
returns `i`. -/
theorem indexOf_get_self {α : Type} [BEq α] [LawfulBEq α] :
    ∀ (l : List α), l.Nodup → ∀ (i : Nat) (h : i < l.length),
      l.indexOf (l.get ⟨i, h⟩) = i := by
  intro l
  induction l with
  | nil =>
    intro _ i h
    simp at h
  | cons a as ih =>
    intro hl i h
    cases i with
    | zero => simp [List.indexOf_cons]
    | succ i =>
      have hi : i < as.length := by simpa using h
      have ha : a ∉ as := (List.nodup_cons.mp hl).1
      have hne : ¬(a == as.get ⟨i, hi⟩) = true := by
        intro hb
        exact ha (eq_of_beq hb ▸ as.get_mem i hi)
      show (a :: as).indexOf (as.get ⟨i, hi⟩) = i + 1
      rw [List.indexOf_cons]
      simp only [hne, cond_false]
      rw [ih (List.nodup_cons.mp hl).2 i hi]

/-- C8: whenever `load_labels` succeeds, the label map assigns each label
its position in the list, so `label_to_id[id_to_label[i]] = i` for every
`i`; and any input whose stripped lines contain a duplicate makes
`load_labels` fail. -/
theorem c8_label_roundtrip :
    (∀ (input : List Line) (labels : List (List Char)),
        load_labels input = .ok labels →
        ∀ (i : Nat) (h : i < labels.length),
          labelMap labels (labels.get ⟨i, h⟩) = i) ∧
    (∀ input : List Line, ¬ (input.map pyStrip).Nodup →
        ∀ labels, load_labels input ≠ .ok labels) := by
  have key : ∀ input labels, load_labels input = .ok labels →
      labels = input.map pyStrip ∧ labels.Nodup := by
    intro input labels h
    obtain ⟨h1, h2⟩ := loadLabelsAux_ok input [] labels h
    exact ⟨by simpa using h1, h2 (by simp)⟩
  constructor
  · intro input labels h i hi
    obtain ⟨-, hnd⟩ := key input labels h
    unfold labelMap
    exact indexOf_get_self labels hnd i hi
  · intro input hnd labels h
    obtain ⟨h1, h2⟩ := key input labels h
    exact hnd (h1 ▸ h2)

/-- C8, witness for `c8_label_roundtrip` on a concrete two-label file
(the first line carries surrounding whitespace that `strip()` removes). -/
theorem c8_label_roundtrip_witness :
    labelMap [['b'], ['a']] ([['b'], ['a']].get ⟨1, by decide⟩) = 1 :=
  c8_label_roundtrip.1 ["  b\n".toList, "a".toList] [['b'], ['a']]
    (by rfl) 1 (by decide)

/-- C2: reading batch `k` through the precomputed byte offset reproduces
exactly batch `k` of the full sequential scan: whenever the sequential
scan of the whole file succeeds with records `all`, seeking to
`offsets[k]` and reading `batch_size` lines (as `TsvSequence.__getitem__`
does, with `base_ln = k * batch_size`) yields
`(all.drop (k * batch_size)).take batch_size`. -/
theorem c2_batch_refines_scan (lines : List Line) (bs k : Nat) (fn : String)
    (opts : Options) (all : List (List Char × List (List Char)))
    (hbs : 1 ≤ bs) (hne : ∀ l ∈ lines, l ≠ [])
    (hk : k < (load_batch_offsets lines bs).1.length)
    (hall : load_tsv_data lines fn opts = .ok all) :
    load_batch_from_tsv lines ((k * bs : Nat) : Int)
        ((load_batch_offsets lines bs).1.get ⟨k, hk⟩) bs fn opts
      = .ok ((all.drop (k * bs)).take bs) := by
  have hoff := load_batch_offsets_get lines bs k hbs hk
  unfold load_batch_from_tsv
  rw [hoff, seekLines_byteLen lines hne (k * bs)]
  have hdrop := parseLines_drop (k * bs) lines 1 ((k * bs : Nat) : Int)
    fn fn opts all hall
  exact parseLines_take bs _ _ fn opts _ hdrop

/-- C2, witness: a concrete two-line file, batch size 1, batch index 1. -/
theorem c2_batch_refines_scan_witness :
    load_batch_from_tsv
        ["a\tb\tc\td\n".toList, "e\tf\tg\th\n".toList]
        ((1 * 1 : Nat) : Int)
        ((load_batch_offsets
            ["a\tb\tc\td\n".toList, "e\tf\tg\th\n".toList] 1).1.get
          ⟨1, by decide⟩) 1 "f.tsv" optsNER
      = .ok ((([(['a'], [['b'], ['c'], ['d']]),
            (['e'], [['f'], ['g'], ['h']])] :
            List (List Char × List (List Char))).drop (1 * 1)).take 1) :=
  c2_batch_refines_scan ["a\tb\tc\td\n".toList, "e\tf\tg\th\n".toList]
    1 1 "f.tsv" optsNER
    [(['a'], [['b'], ['c'], ['d']]), (['e'], [['f'], ['g'], ['h']])]
    (by decide) (by decide) (by decide) (by rfl)

/-- The three-line, 8-bytes-per-line TSV file used to exercise
`load_batch_offsets`. -/
def threeLines : List Line :=
  ["a\tb\tc\td\n".toList, "e\tf\tg\th\n".toList, "i\tj\tk\tl\n".toList]

/-- C6: `load_batch_offsets` does record the byte offset of every
`batch_size`-th line starting at 0, but the count it returns is the final
value of the 0-based `enumerate` counter — `total line count - 1`, not
the total line count — and `TsvSequence` stores exactly that value as
`num_examples`: on a 3-line file it reports 2. -/
theorem c6_line_count_off_by_one :
    threeLines.length = 3 ∧
    (load_batch_offsets threeLines 1).1 = [0, 8, 16] ∧
    (load_batch_offsets threeLines 1).2 = some 2 ∧
    tsvSequenceNumExamples threeLines 1 = some 2 := by
  refine ⟨by decide, by decide, by decide, by decide⟩

/-- A single-line file whose only line has just 2 tab-separated fields. -/
def badLine : Line := "a\tb\n".toList

/-- C7: with the default end-anchored field selectors, parsing fails
exactly on lines with fewer than 4 tab-separated fields, and the error
carries the file name and the line number it was given — but the two
reading paths disagree on that number: the sequential scan numbers lines
from 1 while the offset-seek path numbers them from 0
(`base_ln + enumerate(f)` with `enumerate` starting at 0), so the same
malformed first line is reported as line 1 sequentially and as line 0
through `load_batch_from_tsv`. -/
theorem c7_malformed_line_reporting :
    (∀ (l : Line) (ln : Int) (fn : String) (task : String),
        (∃ v, parse_tsv_line l ln fn ⟨-4, -3, task⟩ = .ok v) ↔
          ¬ (splitTab (rstripNl l)).length < 4) ∧
    (∀ (l : Line) (ln : Int) (fn : String) (opts : Options),
        (splitTab (rstripNl l)).length < 4 →
        parse_tsv_line l ln fn opts
          = .error (.malformed (splitTab (rstripNl l)).length fn ln
              (rstripNl l))) ∧
    load_tsv_data [badLine] "data.tsv" optsNER
      = .error (.malformed 2 "data.tsv" 1 (rstripNl badLine)) ∧
    load_batch_from_tsv [badLine] 0 0 1 "data.tsv" optsNER
      = .error (.malformed 2 "data.tsv" 0 (rstripNl badLine)) := by
  refine ⟨?_, ?_, by rfl, by rfl⟩
  · intro l ln fn task
    simp only [parse_tsv_line]
    by_cases h4 : (splitTab (rstripNl l)).length < 4
    · rw [if_pos h4]
      simp [h4]
    · rw [if_neg h4]
      have hlen : 4 ≤ (splitTab (rstripNl l)).length := by omega
      have hj : (0 : Int) ≤ (splitTab (rstripNl l)).length + (-4) := by
        omega
      have hjlt : ((splitTab (rstripNl l)).length + (-4 : Int)).toNat
          < (splitTab (rstripNl l)).length := by omega
      simp only [pyGet]
      rw [if_pos (by omega : (-4 : Int) < 0), if_pos hj]
      rw [List.get?_eq_get hjlt]
      simp [h4]
  · intro l ln fn opts h4
    simp only [parse_tsv_line]
    rw [if_pos h4]

/-- C7, witness for the general malformed-line clause of
`c7_malformed_line_reporting`. -/
theorem c7_malformed_line_reporting_witness :
    parse_tsv_line badLine 5 "x.tsv" optsRE
      = .error (.malformed (splitTab (rstripNl badLine)).length "x.tsv" 5
          (rstripNl badLine)) :=
  c7_malformed_line_reporting.2.1 badLine 5 "x.tsv" optsRE (by decide)

end BertSpan
